import Mathlib

/-!
Verification of the Gringotts portfolio valuation, vesting-classification and
projection engine (`js/utils.js`, `js/investments.js`).

Modelling conventions:
* JavaScript numbers are modelled as `ℚ` where only field operations occur, and
  as `ℝ` where `Math.pow` with a fractional exponent occurs (the quarterly
  compounding rate), embedded with `Real.rpow`.
* JavaScript `Date` values are modelled at day granularity as
  `(year, month, day)` triples ordered lexicographically, with `month`
  zero-based as in `Date.prototype.getMonth`.  The source only ever compares
  dates and reads year/month components, so this granularity is faithful for
  dates without time-of-day components.
* Nullable record fields are `Option`; JavaScript `x || d` on a possibly-null
  string is translated so that both `null` and `""` fall back to `d`, matching
  JS truthiness.
* JavaScript objects used as accumulator maps (`weighted[cat]`) are modelled as
  insertion-ordered association lists: an existing key is updated in place, a
  new key is appended, exactly as JS string-keyed objects enumerate.
-/

/-- A calendar date at day granularity: `month` is zero-based (0 = January)
as returned by JS `getMonth()`. -/
structure DateYMD where
  year : Int
  month : Fin 12
  day : Nat
deriving DecidableEq, Repr

/-- JS `Date` comparison (`<=` on timestamps) restricted to day granularity:
lexicographic on (year, month, day). -/
def dateLe (d1 d2 : DateYMD) : Bool :=
  decide (d1.year < d2.year) ||
    (decide (d1.year = d2.year) &&
      (decide (d1.month.val < d2.month.val) ||
        (decide (d1.month.val = d2.month.val) && decide (d1.day ≤ d2.day))))

/-- An investment record as produced by `extractInvestmentData`
(`lambda/notion-client.js`): every data field is nullable. -/
structure Investment where
  id : String := ""
  name : String := ""
  ticker : Option String := none
  quantity : Option ℚ := none
  purchase_price : Option ℚ := none
  purchase_date : Option DateYMD := none
  current_price : Option ℚ := none
  currency : Option String := none
  asset_type : Option String := none
  vest_date : Option DateYMD := none
  annual_growth_rate : Option ℚ := none
deriving DecidableEq, Repr

/-- An allocation record as produced by `extractAllocationData`
(`lambda/notion-client.js`): `investment` is the first related page id or
null, `percentage` is already converted to a 0-100 number. -/
structure Allocation where
  id : String := ""
  name : String := ""
  investment : Option String := none
  allocation_type : Option String := none
  category : Option String := none
  percentage : Option ℚ := none
deriving DecidableEq, Repr

/-! ### Currency conversion (`js/utils.js`) -/

/-- `Utils.mxnToEur(amountMXN, fxRate) = amountMXN / fxRate`. -/
def mxnToEur (amountMXN : ℚ) (fxRate : ℚ) : ℚ :=
  amountMXN / fxRate

/-- `Utils.toEur(amount, currency, fxRate)` (`js/utils.js` lines 111-115):
EUR passes through, MXN is divided by the EUR/MXN rate, and any other
currency code falls through to `return amount` (a total function — the JS
body contains no `throw`). -/
def toEur (amount : ℚ) (currency : String) (fxRate : ℚ) : ℚ :=
  if currency = "EUR" then amount
  else if currency = "MXN" then mxnToEur amount fxRate
  else amount

/-- Modelled from the spec: `Utils.convertToEur(amount, currency, fxRates)` is
called by `Investments.getEuroValue`/`getCostBasis` but its definition is not
among the provided sources (the implementation plan places it in
`js/utils.js`).  Spec §4.1: the reporting currency (EUR) passes through
unchanged; a currency present in the rate table is multiplied by the table's
"EUR per unit" factor; an unrecognized currency is returned unchanged. -/
def convertToEur (amount : ℚ) (currency : String) (fxRates : String → Option ℚ) : ℚ :=
  if currency = "EUR" then amount
  else
    match fxRates currency with
    | some r => amount * r
    | none => amount

/-! ### Per-holding valuation and vesting (`js/investments.js`) -/

/-- JS `inv.currency || 'EUR'`: both `null` and the empty string fall back. -/
def currencyOr (inv : Investment) : String :=
  match inv.currency with
  | some c => if c = "" then "EUR" else c
  | none => "EUR"

/-- `Investments.getEuroValue(inv)`:
`(inv.quantity || 0) * (inv.current_price || 0)` converted to EUR. -/
def getEuroValue (fx : String → Option ℚ) (inv : Investment) : ℚ :=
  convertToEur (inv.quantity.getD 0 * inv.current_price.getD 0) (currencyOr inv) fx

/-- `Investments.getCostBasis(inv)`:
`(inv.quantity || 0) * (inv.purchase_price || 0)` converted to EUR. -/
def getCostBasis (fx : String → Option ℚ) (inv : Investment) : ℚ :=
  convertToEur (inv.quantity.getD 0 * inv.purchase_price.getD 0) (currencyOr inv) fx

/-- `Investments.isVested(inv)` (`js/investments.js` lines 187-190): true when
`vest_date` is null, otherwise `new Date(inv.vest_date) <= new Date()`. -/
def isVested (now : DateYMD) (inv : Investment) : Bool :=
  match inv.vest_date with
  | none => true
  | some d => dateLe d now

/-- `Investments.getTotalValue()`: reduce-sum of `getEuroValue`. -/
def getTotalValue (fx : String → Option ℚ) (invs : List Investment) : ℚ :=
  invs.foldl (fun sum inv => sum + getEuroValue fx inv) 0

/-- `Investments.getTotalCost()`: reduce-sum of `getCostBasis`. -/
def getTotalCost (fx : String → Option ℚ) (invs : List Investment) : ℚ :=
  invs.foldl (fun sum inv => sum + getCostBasis fx inv) 0

/-- The `liquidValue` computed in `Investments.updateStats` (lines 216-218):
sum of `getEuroValue` over the holdings passing the `isVested` filter. -/
def liquidValue (fx : String → Option ℚ) (now : DateYMD) (invs : List Investment) : ℚ :=
  (invs.filter (fun inv => isVested now inv)).foldl
    (fun sum inv => sum + getEuroValue fx inv) 0

/-- The `unvestedValue` computed in `Investments.updateStats` (line 220):
`totalValue - liquidValue`. -/
def unvestedValue (fx : String → Option ℚ) (now : DateYMD) (invs : List Investment) : ℚ :=
  getTotalValue fx invs - liquidValue fx now invs

/-! ### Helper lemmas about fold-sums -/

theorem foldl_add_eq_sum (f : Investment → ℚ) (l : List Investment) (init : ℚ) :
    l.foldl (fun sum inv => sum + f inv) init = init + (l.map f).sum := by
  induction l generalizing init with
  | nil => simp
  | cons x xs ih => simp [List.foldl_cons, ih (init + f x)]; ring

theorem sum_map_filter_partition (p : Investment → Bool) (f : Investment → ℚ)
    (l : List Investment) :
    ((l.filter p).map f).sum + ((l.filter (fun x => !(p x))).map f).sum
      = (l.map f).sum := by
  induction l with
  | nil => simp
  | cons x xs ih =>
    by_cases h : p x = true
    · simp [List.filter_cons, h, ← ih]; ring
    · simp only [Bool.not_eq_true] at h
      simp [List.filter_cons, h, ← ih]; ring

/-! ### Allocation aggregator (`js/investments.js` lines 450-486) -/

/-- JS `a.category || 'Other'`: null and empty string fall back to "Other". -/
def categoryOr (a : Allocation) : String :=
  match a.category with
  | some c => if c = "" then "Other" else c
  | none => "Other"

/-- The filter predicate of `calculateWeightedAllocations` (lines 461-464):
`a.allocation_type === type && a.investment && a.investment.includes(inv.id)`.
`a.investment` is a string (or null); JS truthiness makes `""` falsy, and
`String.prototype.includes` is substring containment. -/
def allocMatches (a : Allocation) (t : String) (invId : String) : Bool :=
  (a.allocation_type == some t) &&
    (match a.investment with
     | some s => (!(s == "")) && decide (invId.data <:+: s.data)
     | none => false)

/-- `this.allocations.filter(...)` — the allocation records attributed to one
investment for one dimension. -/
def allocationsFor (allocs : List Allocation) (t : String) (invId : String) :
    List Allocation :=
  allocs.filter (fun a => allocMatches a t invId)

/-- `weighted[cat] = (weighted[cat] || 0) + delta` on a JS object, modelled as
an insertion-ordered association list: update in place when the key exists,
append otherwise. -/
def addTo (m : List (String × ℚ)) (k : String) (delta : ℚ) : List (String × ℚ) :=
  match m with
  | [] => [(k, delta)]
  | (k', v) :: rest =>
    if k' = k then (k', v + delta) :: rest else (k', v) :: addTo rest k delta

/-- Accumulated value of a category key in the map (`weighted[cat] || 0`). -/
def getV (m : List (String × ℚ)) (k : String) : ℚ :=
  match m with
  | [] => 0
  | (k', v) :: rest => if k' = k then v else getV rest k

/-- Sum of all accumulated contributions in the map. -/
def sumV (m : List (String × ℚ)) : ℚ :=
  (m.map (fun p => p.2)).sum

/-- The body of the outer `forEach` of `calculateWeightedAllocations` (lines
456-475): weight the holding, gather its matching allocations, and either
bucket the whole weight as "Unclassified" or add each declared contribution. -/
def applyInv (allocs : List Allocation) (t : String) (fx : String → Option ℚ)
    (totalValue : ℚ) (m : List (String × ℚ)) (inv : Investment) :
    List (String × ℚ) :=
  let weight := getEuroValue fx inv / totalValue
  let invAllocations := allocationsFor allocs t inv.id
  if invAllocations.isEmpty then
    addTo m "Unclassified" (weight * 100)
  else
    invAllocations.foldl
      (fun m a => addTo m (categoryOr a) (weight * a.percentage.getD 0)) m

/-- The fully accumulated `weighted` object of `calculateWeightedAllocations`
before filtering and sorting. -/
def weightedMap (invs : List Investment) (allocs : List Allocation)
    (fx : String → Option ℚ) (t : String) (totalValue : ℚ) :
    List (String × ℚ) :=
  invs.foldl (applyInv allocs t fx totalValue) []

/-- `Investments.calculateWeightedAllocations(type)` (lines 450-486), returning
the sorted `(category, value)` pairs (the source returns the label list and
the value list of exactly these pairs).  `Object.entries` enumerates the
insertion-ordered map; `.filter(([, v]) => v > 0.1)` keeps only contributions
strictly above 0.1; `.sort((a, b) => b[1] - a[1])` is a stable descending sort
by value. -/
def calculateWeightedAllocations (invs : List Investment)
    (allocs : List Allocation) (fx : String → Option ℚ) (t : String) :
    List (String × ℚ) :=
  let totalValue := getTotalValue fx invs
  if totalValue = 0 then []
  else
    ((weightedMap invs allocs fx t totalValue).filter
        (fun p => decide ((1 : ℚ)/10 < p.2))).mergeSort
      (fun a b => decide (b.2 ≤ a.2))

/-! ### Historical value reconstruction (`js/investments.js` lines 575-622) -/

/-- Gregorian leap-year rule as implemented by the JS `Date` object. -/
def isLeapYear (y : Int) : Bool :=
  (y % 4 == 0 && !(y % 100 == 0)) || y % 400 == 0

/-- Number of days in month `m` (zero-based) of year `y`; `new Date(y, m+1, 0)`
is the last day of month `m`. -/
def daysInMonth (y : Int) (m : Nat) : Nat :=
  if m = 1 then (if isLeapYear y then 29 else 28)
  else [31, 28, 31, 30, 31, 30, 31, 31, 30, 31, 30, 31].getD m 31

/-- `toLocaleString('en', { month: 'short' })` month names. -/
def monthShortName (m : Nat) : String :=
  ["Jan", "Feb", "Mar", "Apr", "May", "Jun",
   "Jul", "Aug", "Sep", "Oct", "Nov", "Dec"].getD m "Jan"

/-- Linear month index `year * 12 + month`, the order in which the history
loop's first-of-month cursor advances. -/
def monthIdx (y : Int) (m : Nat) : Int := y * 12 + m

/-- The purchase dates present among the holdings (the source filters
`inv.purchase_date` for truthiness before sorting). -/
def purchaseDates (invs : List Investment) : List DateYMD :=
  invs.filterMap (fun inv => inv.purchase_date)

/-- `sorted[0].purchase_date` after the ascending sort by date: the minimum
purchase date, when one exists. -/
def earliestPurchase (invs : List Investment) : Option DateYMD :=
  match purchaseDates invs with
  | [] => none
  | d :: ds => some (ds.foldl (fun acc x => if dateLe x acc then x else acc) d)

/-- Result of `calculateValueHistory`: parallel label and value lists. -/
structure HistoryResult where
  labels : List String
  values : List ℚ
deriving DecidableEq, Repr

/-- The per-month accumulation of the history loop body (lines 597-607): sum,
over holdings purchased on or before the end of the cursor month, of current
value in the current month and cost basis in earlier months. -/
def historyMonthValue (fx : String → Option ℚ) (now : DateYMD)
    (invs : List Investment) (cy : Int) (cm : Fin 12) : ℚ :=
  invs.foldl
    (fun s inv =>
      match inv.purchase_date with
      | none => s
      | some pd =>
        if dateLe pd ⟨cy, cm, daysInMonth cy cm.val⟩ then
          s + (if cy = now.year ∧ cm.val = now.month.val
               then getEuroValue fx inv else getCostBasis fx inv)
        else s)
    0

/-- `Investments.calculateValueHistory()` (lines 575-622).  The `while (cursor
<= now)` loop starts at the first day of the earliest purchase month and steps
one month at a time; a first-of-month cursor compares `<=` against a valid
`now` (day ≥ 1) exactly when its month index does, so the loop runs
`monthIdx(now) - monthIdx(earliest) + 1` times (clamped at zero).  The last
value is then overwritten with the live `getTotalValue()` when the series is
non-empty. -/
def calculateValueHistory (fx : String → Option ℚ) (now : DateYMD)
    (invs : List Investment) : HistoryResult :=
  if invs.isEmpty then ⟨[], []⟩
  else
    match earliestPurchase invs with
    | none => ⟨[], []⟩
    | some earliest =>
      let n : Nat :=
        (monthIdx now.year now.month.val
          - monthIdx earliest.year earliest.month.val + 1).toNat
      let cursorY : Nat → Int :=
        fun k => earliest.year + ((earliest.month.val + k) / 12 : Nat)
      let cursorM : Nat → Fin 12 :=
        fun k => ⟨(earliest.month.val + k) % 12, Nat.mod_lt _ (by omega)⟩
      let labels := (List.range n).map
        (fun k => monthShortName (cursorM k).val ++ " " ++ toString (cursorY k))
      let values := (List.range n).map
        (fun k => historyMonthValue fx now invs (cursorY k) (cursorM k))
      let values :=
        if values.isEmpty then values
        else values.dropLast ++ [getTotalValue fx invs]
      ⟨labels, values⟩

/-! ### Projection engine (`js/investments.js` lines 704-771) -/

/-- The shared effective-rate expression of `renderPortfolioTable` (line 261)
and `calculateProjection` (line 713):
`this.growthRates[inv.id] != null ? this.growthRates[inv.id] : 7`. -/
def effectiveGrowthRatePct (growthRates : String → Option ℚ) (inv : Investment) : ℚ :=
  (growthRates inv.id).getD 7

/-- One entry of the `holdings` array built at lines 712-726. -/
structure ProjHolding where
  value : ℝ
  quarterlyRate : ℝ
  vested : Bool
  vestQuarterOffset : Int

/-- Zero-based calendar quarter of a zero-based month: `Math.floor(month / 3)`. -/
def quarterOfMonth (m : Nat) : Nat := m / 3

/-- The holding record built per investment at lines 712-726: EUR value,
quarterly compounding rate `Math.pow(1 + annualRate, 0.25) - 1`, current
vesting flag, and the vest-quarter offset
`(vestYear - currentYear) * 4 + (vestQuarter - currentQuarter)` (`-1` when
there is no vest date). -/
noncomputable def mkProjHolding (growthRates : String → Option ℚ)
    (fx : String → Option ℚ) (now : DateYMD) (inv : Investment) : ProjHolding :=
  let annualRate : ℝ := ((effectiveGrowthRatePct growthRates inv : ℚ) : ℝ) / 100
  { value := ((getEuroValue fx inv : ℚ) : ℝ)
    quarterlyRate := (1 + annualRate) ^ ((1 : ℝ)/4) - 1
    vested := isVested now inv
    vestQuarterOffset :=
      match inv.vest_date with
      | some vd =>
        (vd.year - now.year) * 4 +
          ((quarterOfMonth vd.month.val : Int) - (quarterOfMonth now.month.val : Int))
      | none => -1 }

/-- Line 745: `h.vested || (h.vestQuarterOffset >= 0 && q >= h.vestQuarterOffset)`. -/
def isVestedByQ (h : ProjHolding) (q : Nat) : Bool :=
  h.vested || (decide ((0 : Int) ≤ h.vestQuarterOffset) &&
    decide (h.vestQuarterOffset ≤ (q : Int)))

/-- Line 743: `h.value * Math.pow(1 + h.quarterlyRate, q)`. -/
noncomputable def grownValue (h : ProjHolding) (q : Nat) : ℝ :=
  h.value * (1 + h.quarterlyRate) ^ q

/-- The `liquidTotal` accumulated in the loop body at lines 742-752. -/
noncomputable def liquidAt (hs : List ProjHolding) (q : Nat) : ℝ :=
  (hs.map (fun h => if isVestedByQ h q then grownValue h q else 0)).sum

/-- The `unvestedTotal` accumulated in the loop body at lines 742-752. -/
noncomputable def unvestedAt (hs : List ProjHolding) (q : Nat) : ℝ :=
  (hs.map (fun h => if isVestedByQ h q then 0 else grownValue h q)).sum

/-- Period label `Q{absQ + 1} {absYear}` (lines 735-737). -/
def quarterLabel (now : DateYMD) (q : Nat) : String :=
  let absYear := now.year + ((quarterOfMonth now.month.val + q) / 4 : Nat)
  let absQ := (quarterOfMonth now.month.val + q) % 4
  "Q" ++ toString (absQ + 1) ++ " " ++ toString absYear

/-- Result of `calculateProjection` (the two series consumed by the chart;
the year×quarter table regroups the same per-quarter numbers). -/
structure ProjectionResult where
  labels : List String
  liquid : List ℝ
  withUnvested : List ℝ

/-- `Investments.calculateProjection()` (lines 704-771): the loop runs for
`q = 0 .. 20` inclusive, pushing the quarter label, the liquid total and
`liquidTotal + unvestedTotal`. -/
noncomputable def calculateProjection (growthRates : String → Option ℚ)
    (fx : String → Option ℚ) (now : DateYMD) (invs : List Investment) :
    ProjectionResult :=
  let holdings := invs.map (mkProjHolding growthRates fx now)
  { labels := (List.range 21).map (quarterLabel now)
    liquid := (List.range 21).map (liquidAt holdings)
    withUnvested :=
      (List.range 21).map (fun q => liquidAt holdings q + unvestedAt holdings q) }

/-! ### Theorems -/

/-- C8: `isVested` returns true exactly when `vest_date` is absent or at most
the current time, and false exactly when `vest_date` is present and strictly
in the future (`dateLe d now = false`). -/
theorem c8_isVested_characterization (now : DateYMD) (inv : Investment) :
    (isVested now inv = true ↔
      inv.vest_date = none ∨ ∃ d, inv.vest_date = some d ∧ dateLe d now = true)
    ∧ (isVested now inv = false ↔
      ∃ d, inv.vest_date = some d ∧ dateLe d now = false) := by
  cases h : inv.vest_date with
  | none => simp [isVested, h]
  | some d => simp [isVested, h]

/-- C6 counterexample: for the unrecognized code "XYZ" the fallback of `toEur`
is not observable to the caller — the returned value is the bare amount,
identical to what the reporting currency "EUR" itself produces, so no flag of
any kind reaches the caller. -/
theorem c6_counterexample :
    toEur 42 "XYZ" 21 = 42 ∧ toEur 42 "XYZ" 21 = toEur 42 "EUR" 21 := by
  constructor <;> decide

/-- C6 (amended): for every amount and every currency code that is neither
"EUR" nor a recognized code ("MXN"), `toEur` returns the amount unchanged and
never throws (it is a total function); the fallback is silent — the caller
receives only the unchanged number, with no flag. -/
theorem c6_toEur_fallback (amount fxRate : ℚ) (c : String)
    (h1 : c ≠ "EUR") (h2 : c ≠ "MXN") :
    toEur amount c fxRate = amount := by
  simp [toEur, h1, h2]

/-- Witness for C6: the amended theorem applied at amount 42, code "XYZ",
rate 21. -/
theorem c6_toEur_fallback_witness :
    ("XYZ" ≠ "EUR") ∧ ("XYZ" ≠ "MXN") ∧ toEur 42 "XYZ" 21 = 42 :=
  ⟨by decide, by decide, c6_toEur_fallback 42 21 "XYZ" (by decide) (by decide)⟩

/-- C10: a holding whose identifier has no entry in the growth-rate map gets
the constant fallback annual rate of 7 percent — both in the portfolio-table
expression and inside `calculateProjection`, whose quarterly rate then is
`(1 + 7/100) ^ (1/4) - 1`. -/
theorem c10_growth_rate_fallback (growthRates fx : String → Option ℚ)
    (now : DateYMD) (inv : Investment) (h : growthRates inv.id = none) :
    effectiveGrowthRatePct growthRates inv = 7
    ∧ (mkProjHolding growthRates fx now inv).quarterlyRate
        = (1 + 7/100 : ℝ) ^ ((1 : ℝ)/4) - 1 := by
  constructor
  · simp [effectiveGrowthRatePct, h]
  · simp only [mkProjHolding, effectiveGrowthRatePct, h, Option.getD_none]
    norm_num

/-- Witness for C10: the fallback theorem applied to an empty growth-rate map
and a concrete holding. -/
theorem c10_growth_rate_fallback_witness :
    ((fun _ : String => (none : Option ℚ)) ({ id := "a" } : Investment).id
        = none)
    ∧ (effectiveGrowthRatePct (fun _ => none) { id := "a" } = 7
      ∧ (mkProjHolding (fun _ => none) (fun _ => none)
            ⟨2026, 9, 11⟩ { id := "a" }).quarterlyRate
          = (1 + 7/100 : ℝ) ^ ((1 : ℝ)/4) - 1) :=
  ⟨rfl, c10_growth_rate_fallback (fun _ => none) (fun _ => none)
    ⟨2026, 9, 11⟩ { id := "a" } rfl⟩

/-- C5: for every snapshot, the liquid value plus the unvested value equals
the total portfolio value (exactly, in the rational model of float
arithmetic), and the unvested value is the sum of `getEuroValue` over the
holdings with `isVested` false. -/
theorem c5_liquid_plus_unvested (fx : String → Option ℚ) (now : DateYMD)
    (invs : List Investment) :
    liquidValue fx now invs + unvestedValue fx now invs = getTotalValue fx invs
    ∧ unvestedValue fx now invs
        = ((invs.filter (fun i => !(isVested now i))).map (getEuroValue fx)).sum := by
  have h1 : liquidValue fx now invs
      = ((invs.filter (fun i => isVested now i)).map (getEuroValue fx)).sum := by
    simp [liquidValue, foldl_add_eq_sum]
  have h2 : getTotalValue fx invs = (invs.map (getEuroValue fx)).sum := by
    simp [getTotalValue, foldl_add_eq_sum]
  refine ⟨by simp [unvestedValue], ?_⟩
  have h3 := sum_map_filter_partition (fun i => isVested now i) (getEuroValue fx) invs
  simp only [unvestedValue, h1, h2]
  linarith

/-- C9: an allocation record is attributed to a holding id for a dimension
exactly when its `allocation_type` equals the dimension and its `investment`
field is a non-empty string containing the holding id as a substring;
consequently one record whose `investment` string contains two holdings' ids
is attributed to both. -/
theorem c9_allocation_attribution (allocs : List Allocation) (t : String)
    (a : Allocation) :
    (∀ id1 : String,
      (a ∈ allocationsFor allocs t id1 ↔
        a ∈ allocs ∧ a.allocation_type = some t ∧
          ∃ s, a.investment = some s ∧ s ≠ "" ∧ id1.data <:+: s.data))
    ∧ (∀ id1 id2 s, a ∈ allocs → a.allocation_type = some t →
        a.investment = some s → s ≠ "" →
        id1.data <:+: s.data → id2.data <:+: s.data →
        a ∈ allocationsFor allocs t id1 ∧ a ∈ allocationsFor allocs t id2) := by
  have hmem : ∀ id1 : String,
      (a ∈ allocationsFor allocs t id1 ↔
        a ∈ allocs ∧ a.allocation_type = some t ∧
          ∃ s, a.investment = some s ∧ s ≠ "" ∧ id1.data <:+: s.data) := by
    intro id1
    rw [allocationsFor, List.mem_filter]
    constructor
    · rintro ⟨hin, hb⟩
      refine ⟨hin, ?_⟩
      cases hi : a.investment with
      | none => simp [allocMatches, hi] at hb
      | some s =>
        simp only [allocMatches, hi, Bool.and_eq_true, beq_iff_eq,
          Bool.not_eq_true', beq_eq_false_iff_ne, ne_eq, decide_eq_true_eq] at hb
        exact ⟨hb.1, s, rfl, hb.2.1, hb.2.2⟩
    · rintro ⟨hin, hty, s, hi, hne, hinf⟩
      refine ⟨hin, ?_⟩
      simp only [allocMatches, hi, Bool.and_eq_true, beq_iff_eq,
        Bool.not_eq_true', beq_eq_false_iff_ne, ne_eq, decide_eq_true_eq]
      exact ⟨hty, hne, hinf⟩
  refine ⟨hmem, ?_⟩
  intro id1 id2 s hin hty hi hne h1 h2
  exact ⟨(hmem id1).mpr ⟨hin, hty, s, hi, hne, h1⟩,
         (hmem id2).mpr ⟨hin, hty, s, hi, hne, h2⟩⟩

/-- Witness for C9: a record whose `investment` string "xabcy" contains both
ids "ab" and "bc" is attributed to both holdings. -/
theorem c9_allocation_attribution_witness :
    ({ investment := some "xabcy", allocation_type := some "industry" } :
        Allocation) ∈
      allocationsFor
        [{ investment := some "xabcy", allocation_type := some "industry" }]
        "industry" "ab"
    ∧ ({ investment := some "xabcy", allocation_type := some "industry" } :
        Allocation) ∈
      allocationsFor
        [{ investment := some "xabcy", allocation_type := some "industry" }]
        "industry" "bc" :=
  (c9_allocation_attribution
      [{ investment := some "xabcy", allocation_type := some "industry" }]
      "industry"
      { investment := some "xabcy", allocation_type := some "industry" }).2
    "ab" "bc" "xabcy" (by decide) rfl rfl (by decide) (by decide) (by decide)

/-- C4: per holding the quarterly rate is `(1 + r)^(1/4) - 1` for the
effective annual rate `r` (as a fraction), the grown value
`v * (1 + quarterlyRate)^q` is monotonically non-decreasing in the period
index when the effective rate and the holding value are non-negative, and
with rate 0 the grown value equals the current value at every period. -/
theorem c4_growth_monotone (growthRates fx : String → Option ℚ)
    (now : DateYMD) (inv : Investment)
    (hr : 0 ≤ effectiveGrowthRatePct growthRates inv)
    (hv : 0 ≤ getEuroValue fx inv) :
    ((mkProjHolding growthRates fx now inv).quarterlyRate
        = (1 + ((effectiveGrowthRatePct growthRates inv : ℚ) : ℝ)/100)
            ^ ((1 : ℝ)/4) - 1)
    ∧ (∀ q1 q2 : Nat, q1 ≤ q2 →
        grownValue (mkProjHolding growthRates fx now inv) q1
          ≤ grownValue (mkProjHolding growthRates fx now inv) q2)
    ∧ (effectiveGrowthRatePct growthRates inv = 0 →
        ∀ q : Nat, grownValue (mkProjHolding growthRates fx now inv) q
          = ((getEuroValue fx inv : ℚ) : ℝ)) := by
  have hval : (mkProjHolding growthRates fx now inv).value
      = ((getEuroValue fx inv : ℚ) : ℝ) := rfl
  have hqr : (mkProjHolding growthRates fx now inv).quarterlyRate
      = (1 + ((effectiveGrowthRatePct growthRates inv : ℚ) : ℝ)/100)
          ^ ((1 : ℝ)/4) - 1 := rfl
  refine ⟨hqr, ?_, ?_⟩
  · intro q1 q2 hq
    have har : (0 : ℝ) ≤ ((effectiveGrowthRatePct growthRates inv : ℚ) : ℝ)/100 := by
      have : (0 : ℝ) ≤ ((effectiveGrowthRatePct growthRates inv : ℚ) : ℝ) := by
        exact_mod_cast hr
      linarith
    have hbase : (1 : ℝ) ≤
        (1 + ((effectiveGrowthRatePct growthRates inv : ℚ) : ℝ)/100)
          ^ ((1 : ℝ)/4) := by
      calc (1 : ℝ) = (1 : ℝ) ^ ((1 : ℝ)/4) := (Real.one_rpow _).symm
        _ ≤ _ := Real.rpow_le_rpow zero_le_one (by linarith) (by norm_num)
    have hone : (1 : ℝ) ≤
        1 + (mkProjHolding growthRates fx now inv).quarterlyRate := by
      rw [hqr]; linarith
    have hpow :
        (1 + (mkProjHolding growthRates fx now inv).quarterlyRate) ^ q1
          ≤ (1 + (mkProjHolding growthRates fx now inv).quarterlyRate) ^ q2 :=
      pow_le_pow_right₀ hone hq
    have hv' : (0 : ℝ) ≤ (mkProjHolding growthRates fx now inv).value := by
      rw [hval]; exact_mod_cast hv
    exact mul_le_mul_of_nonneg_left hpow hv'
  · intro h0 q
    have : (mkProjHolding growthRates fx now inv).quarterlyRate = 0 := by
      rw [hqr, h0]
      norm_num
    simp [grownValue, this, hval]

/-- Witness for C4: the theorem applied to a holding worth 1000 EUR with an
effective annual growth rate of 0. -/
theorem c4_growth_monotone_witness :
    (0 : ℚ) ≤ effectiveGrowthRatePct (fun _ => some 0)
        { id := "a", quantity := some 1, current_price := some 1000,
           currency := some "EUR" }
    ∧ (0 : ℚ) ≤ getEuroValue (fun _ => none)
        { id := "a", quantity := some 1, current_price := some 1000,
           currency := some "EUR" }
    ∧ (effectiveGrowthRatePct (fun _ => some 0)
          { id := "a", quantity := some 1, current_price := some 1000,
             currency := some "EUR" } = 0 →
        ∀ q : Nat,
          grownValue
            (mkProjHolding (fun _ => some 0) (fun _ => none) ⟨2026, 0, 1⟩
              { id := "a", quantity := some 1, current_price := some 1000,
                 currency := some "EUR" }) q
          = ((getEuroValue (fun _ => none)
                { id := "a", quantity := some 1, current_price := some 1000,
                   currency := some "EUR" } : ℚ) : ℝ)) :=
  ⟨by decide, by simp [getEuroValue, convertToEur, currencyOr],
    (c4_growth_monotone (fun _ => some 0) (fun _ => none) ⟨2026, 0, 1⟩
      { id := "a", quantity := some 1, current_price := some 1000,
         currency := some "EUR" } (by decide)
      (by simp [getEuroValue, convertToEur, currencyOr])).2.2⟩

/-- At period 0, a projection holding passes the vesting check iff it is
currently vested or its vest-quarter offset is exactly 0. -/
theorem isVestedByQ_zero (h : ProjHolding) :
    isVestedByQ h 0 = (h.vested || decide (h.vestQuarterOffset = 0)) := by
  rw [Bool.eq_iff_iff]
  simp only [isVestedByQ, Nat.cast_zero, Bool.or_eq_true, Bool.and_eq_true,
    decide_eq_true_eq]
  constructor
  · rintro (hv | ⟨h1, h2⟩)
    · exact Or.inl hv
    · exact Or.inr (by omega)
  · rintro (hv | h0)
    · exact Or.inl hv
    · exact Or.inr ⟨by omega, by omega⟩

theorem liquidAt_cons (h : ProjHolding) (hs : List ProjHolding) (q : Nat) :
    liquidAt (h :: hs) q
      = (if isVestedByQ h q then grownValue h q else 0) + liquidAt hs q := by
  simp [liquidAt]

theorem unvestedAt_cons (h : ProjHolding) (hs : List ProjHolding) (q : Nat) :
    unvestedAt (h :: hs) q
      = (if isVestedByQ h q then 0 else grownValue h q) + unvestedAt hs q := by
  simp [unvestedAt]

/-- The quarter-0 liquid/unvested split of the projection holdings, under the
assumption that no currently-unvested holding has vest-quarter offset 0. -/
theorem projPeriod0_split (growthRates fx : String → Option ℚ) (now : DateYMD)
    (l : List Investment)
    (h : ∀ inv ∈ l, isVested now inv = false →
        (mkProjHolding growthRates fx now inv).vestQuarterOffset ≠ 0) :
    liquidAt (l.map (mkProjHolding growthRates fx now)) 0
      = ((((l.filter (fun i => isVested now i)).map (getEuroValue fx)).sum : ℚ) : ℝ)
    ∧ unvestedAt (l.map (mkProjHolding growthRates fx now)) 0
      = ((((l.filter (fun i => !(isVested now i))).map (getEuroValue fx)).sum : ℚ) : ℝ) := by
  induction l with
  | nil => simp [liquidAt, unvestedAt]
  | cons x xs ih =>
    obtain ⟨ih1, ih2⟩ := ih (fun inv hm hf => h inv (List.mem_cons_of_mem _ hm) hf)
    have hvested : (mkProjHolding growthRates fx now x).vested = isVested now x := rfl
    have hgrown : grownValue (mkProjHolding growthRates fx now x) 0
        = ((getEuroValue fx x : ℚ) : ℝ) := by
      simp [grownValue, mkProjHolding]
    by_cases hv : isVested now x = true
    · have hby : isVestedByQ (mkProjHolding growthRates fx now x) 0 = true := by
        rw [isVestedByQ_zero, hvested, hv, Bool.true_or]
      constructor
      · rw [List.map_cons, liquidAt_cons, hby, if_pos rfl, hgrown,
          List.filter_cons, if_pos (by simp [hv]), List.map_cons,
          List.sum_cons, Rat.cast_add, ih1]
      · rw [List.map_cons, unvestedAt_cons, hby, if_pos rfl,
          List.filter_cons, if_neg (by simp [hv]), ih2, zero_add]
    · have hv' : isVested now x = false := by
        simpa using hv
      have hoff := h x (List.mem_cons_self x xs) hv'
      have hby : isVestedByQ (mkProjHolding growthRates fx now x) 0 = false := by
        rw [isVestedByQ_zero, hvested, hv']
        simpa using hoff
      constructor
      · rw [List.map_cons, liquidAt_cons, hby, if_neg (by simp), ih1,
          List.filter_cons, if_neg (by simp [hv']), zero_add]
      · rw [List.map_cons, unvestedAt_cons, hby, if_neg (by simp), hgrown,
          List.filter_cons, if_pos (by simp [hv']), List.map_cons,
          List.sum_cons, Rat.cast_add, ih2]

/-- C1 counterexample: a holding whose vest date (December 2026) is in the
future but inside the current quarter (now = 11 October 2026) has
vest-quarter offset 0, so `calculateProjection` counts its full value as
liquid at period 0, while `updateStats` counts it unvested: the quarter-0
liquid total is 100 but the non-projected liquid value is 0. -/
theorem c1_counterexample :
    liquidAt
        ([{ id := "a", quantity := some 1, current_price := some 100,
             currency := some "EUR",
             vest_date := some ⟨2026, 11, 1⟩ }].map
          (mkProjHolding (fun _ => none) (fun _ => none) ⟨2026, 9, 11⟩)) 0
      = 100
    ∧ liquidValue (fun _ => none) ⟨2026, 9, 11⟩
        [{ id := "a", quantity := some 1, current_price := some 100,
            currency := some "EUR", vest_date := some ⟨2026, 11, 1⟩ }] = 0
    ∧ liquidAt
        ([{ id := "a", quantity := some 1, current_price := some 100,
             currency := some "EUR",
             vest_date := some ⟨2026, 11, 1⟩ }].map
          (mkProjHolding (fun _ => none) (fun _ => none) ⟨2026, 9, 11⟩)) 0
      ≠ ((liquidValue (fun _ => none) ⟨2026, 9, 11⟩
            [{ id := "a", quantity := some 1, current_price := some 100,
                currency := some "EUR",
                vest_date := some ⟨2026, 11, 1⟩ }] : ℚ) : ℝ) := by
  have h1 : liquidAt
      ([{ id := "a", quantity := some 1, current_price := some 100,
           currency := some "EUR",
           vest_date := some ⟨2026, 11, 1⟩ }].map
        (mkProjHolding (fun _ => none) (fun _ => none) ⟨2026, 9, 11⟩)) 0
      = 100 := by
    simp [liquidAt, mkProjHolding, isVestedByQ, grownValue, isVested, dateLe,
      quarterOfMonth, getEuroValue, convertToEur, currencyOr,
      effectiveGrowthRatePct]
    decide
  have h2 : liquidValue (fun _ => none) ⟨2026, 9, 11⟩
      [{ id := "a", quantity := some 1, current_price := some 100,
          currency := some "EUR", vest_date := some ⟨2026, 11, 1⟩ }] = 0 := by
    rfl
  refine ⟨h1, h2, ?_⟩
  rw [h1, h2]
  norm_num

/-- C1 (amended): the projection's period-0 liquid/unvested split equals the
non-projected split of `updateStats` for every snapshot in which no
currently-unvested holding has vest-quarter offset 0, i.e. no holding vests
later within the current calendar quarter; such a holding is counted as
liquid at period 0 by the projection although `updateStats` counts it
unvested. -/
theorem c1_period0_split (growthRates fx : String → Option ℚ) (now : DateYMD)
    (invs : List Investment)
    (h : ∀ inv ∈ invs, isVested now inv = false →
        (mkProjHolding growthRates fx now inv).vestQuarterOffset ≠ 0) :
    (calculateProjection growthRates fx now invs).liquid.head?
      = some ((liquidValue fx now invs : ℚ) : ℝ)
    ∧ unvestedAt (invs.map (mkProjHolding growthRates fx now)) 0
      = ((unvestedValue fx now invs : ℚ) : ℝ) := by
  obtain ⟨h1, h2⟩ := projPeriod0_split growthRates fx now invs h
  have hl : liquidValue fx now invs
      = ((invs.filter (fun i => isVested now i)).map (getEuroValue fx)).sum := by
    simp [liquidValue, foldl_add_eq_sum]
  have ht : getTotalValue fx invs = (invs.map (getEuroValue fx)).sum := by
    simp [getTotalValue, foldl_add_eq_sum]
  have hpart := sum_map_filter_partition (fun i => isVested now i)
    (getEuroValue fx) invs
  have hu : unvestedValue fx now invs
      = ((invs.filter (fun i => !(isVested now i))).map (getEuroValue fx)).sum := by
    simp only [unvestedValue, hl, ht]
    linarith
  constructor
  · have hhead : (calculateProjection growthRates fx now invs).liquid.head?
        = some (liquidAt (invs.map (mkProjHolding growthRates fx now)) 0) := by
      simp only [calculateProjection]
      rw [show (21 : Nat) = 20 + 1 from rfl, List.range_succ_eq_map]
      simp
    rw [hhead, h1, hl]
  · rw [h2, hu]

/-- Witness for C1: the amended theorem applied to a snapshot with one
vested holding worth 100 EUR. -/
theorem c1_period0_split_witness :
    (∀ inv ∈ [({ id := "a", quantity := some 1, current_price := some 100,
                  currency := some "EUR" } : Investment)],
        isVested ⟨2026, 9, 11⟩ inv = false →
        (mkProjHolding (fun _ => none) (fun _ => none) ⟨2026, 9, 11⟩
            inv).vestQuarterOffset ≠ 0)
    ∧ ((calculateProjection (fun _ => none) (fun _ => none) ⟨2026, 9, 11⟩
          [{ id := "a", quantity := some 1, current_price := some 100,
              currency := some "EUR" }]).liquid.head?
        = some ((liquidValue (fun _ => none) ⟨2026, 9, 11⟩
            [{ id := "a", quantity := some 1, current_price := some 100,
                currency := some "EUR" }] : ℚ) : ℝ)
      ∧ unvestedAt
          ([({ id := "a", quantity := some 1, current_price := some 100,
                currency := some "EUR" } : Investment)].map
            (mkProjHolding (fun _ => none) (fun _ => none) ⟨2026, 9, 11⟩)) 0
        = ((unvestedValue (fun _ => none) ⟨2026, 9, 11⟩
            [{ id := "a", quantity := some 1, current_price := some 100,
                currency := some "EUR" }] : ℚ) : ℝ)) :=
  ⟨by intro inv hm hf; rw [List.mem_singleton] at hm; subst hm;
      simp [isVested] at hf,
   c1_period0_split (fun _ => none) (fun _ => none) ⟨2026, 9, 11⟩
     [{ id := "a", quantity := some 1, current_price := some 100,
         currency := some "EUR" }]
     (by intro inv hm hf; rw [List.mem_singleton] at hm; subst hm;
         simp [isVested] at hf)⟩

/-! ### Association-map lemmas for the weighted-allocation accumulator -/

theorem getV_addTo_self (m : List (String × ℚ)) (k : String) (d : ℚ) :
    getV (addTo m k d) k = getV m k + d := by
  induction m with
  | nil => simp [addTo, getV]
  | cons p rest ih =>
    obtain ⟨k', v⟩ := p
    by_cases h : k' = k
    · simp [addTo, getV, h]
    · simp [addTo, getV, h, ih]

theorem getV_addTo_ne (m : List (String × ℚ)) (k k' : String) (d : ℚ)
    (h : k' ≠ k) :
    getV (addTo m k d) k' = getV m k' := by
  have hk : k ≠ k' := Ne.symm h
  induction m with
  | nil =>
    simp only [addTo, getV]
    rw [if_neg hk]
  | cons p rest ih =>
    obtain ⟨k0, v⟩ := p
    by_cases h0 : k0 = k
    · subst h0
      simp only [addTo, if_pos rfl, getV]
      rw [if_neg hk, if_neg hk]
    · simp only [addTo, if_neg h0, getV]
      by_cases h1 : k0 = k'
      · simp [h1]
      · simp [h1, ih]

theorem sumV_addTo (m : List (String × ℚ)) (k : String) (d : ℚ) :
    sumV (addTo m k d) = sumV m + d := by
  induction m with
  | nil => simp [addTo, sumV]
  | cons p rest ih =>
    obtain ⟨k0, v⟩ := p
    by_cases h : k0 = k
    · simp [addTo, sumV, h]; ring
    · simp only [addTo, sumV, if_neg h, List.map_cons, List.sum_cons] at ih ⊢
      rw [ih]; ring

/-- The inner `forEach` over a holding's allocations never touches the
"Unclassified" key as long as no record's own category label is
"Unclassified". -/
theorem getV_allocFold_unclassified (w : ℚ) (as : List Allocation)
    (m : List (String × ℚ))
    (h : ∀ a ∈ as, categoryOr a ≠ "Unclassified") :
    getV (as.foldl
        (fun m a => addTo m (categoryOr a) (w * a.percentage.getD 0)) m)
      "Unclassified" = getV m "Unclassified" := by
  induction as generalizing m with
  | nil => rfl
  | cons a rest ih =>
    rw [List.foldl_cons,
      ih _ (fun x hx => h x (List.mem_cons_of_mem _ hx)),
      getV_addTo_ne _ _ _ _ (Ne.symm (h a (List.mem_cons_self a rest)))]

theorem sumV_allocFold (w : ℚ) (as : List Allocation) (m : List (String × ℚ)) :
    sumV (as.foldl
        (fun m a => addTo m (categoryOr a) (w * a.percentage.getD 0)) m)
      = sumV m + w * (as.map (fun a => a.percentage.getD 0)).sum := by
  induction as generalizing m with
  | nil => simp
  | cons a rest ih =>
    rw [List.foldl_cons, ih, sumV_addTo, List.map_cons, List.sum_cons]
    ring

/-- Accumulation of the "Unclassified" key across the outer `forEach`. -/
theorem getV_weightedFold_unclassified (allocs : List Allocation) (t : String)
    (fx : String → Option ℚ) (tv : ℚ)
    (hcat : ∀ a ∈ allocs, categoryOr a ≠ "Unclassified")
    (invs : List Investment) :
    ∀ m, getV (invs.foldl (applyInv allocs t fx tv) m) "Unclassified"
      = getV m "Unclassified"
        + 100 * ((invs.filter
            (fun i => (allocationsFor allocs t i.id).isEmpty)).map
          (fun i => getEuroValue fx i / tv)).sum := by
  induction invs with
  | nil => intro m; simp
  | cons x xs ih =>
    intro m
    rw [List.foldl_cons]
    by_cases hx : (allocationsFor allocs t x.id).isEmpty = true
    · have happ : applyInv allocs t fx tv m x
          = addTo m "Unclassified" (getEuroValue fx x / tv * 100) := by
        simp [applyInv, hx]
      rw [happ, ih, getV_addTo_self, List.filter_cons, if_pos (by simp [hx]),
        List.map_cons, List.sum_cons]
      ring
    · have happ : applyInv allocs t fx tv m x
          = (allocationsFor allocs t x.id).foldl
              (fun m a => addTo m (categoryOr a)
                (getEuroValue fx x / tv * a.percentage.getD 0)) m := by
        simp [applyInv, hx]
      rw [happ, ih, List.filter_cons, if_neg (by simp [hx]),
        getV_allocFold_unclassified (getEuroValue fx x / tv)
          (allocationsFor allocs t x.id) m
          (fun a ha => hcat a (List.mem_of_mem_filter ha))]

/-- Total accumulated contribution across the outer `forEach`: each holding
adds either its full weight times 100 (no matching allocations) or its weight
times the sum of its declared percentages. -/
theorem sumV_weightedFold (allocs : List Allocation) (t : String)
    (fx : String → Option ℚ) (tv : ℚ) (invs : List Investment) :
    ∀ m, sumV (invs.foldl (applyInv allocs t fx tv) m)
      = sumV m
        + (invs.map (fun i =>
            if (allocationsFor allocs t i.id).isEmpty
            then getEuroValue fx i / tv * 100
            else getEuroValue fx i / tv
              * ((allocationsFor allocs t i.id).map
                  (fun a => a.percentage.getD 0)).sum)).sum := by
  induction invs with
  | nil => intro m; simp
  | cons x xs ih =>
    intro m
    rw [List.foldl_cons, List.map_cons, List.sum_cons]
    by_cases hx : (allocationsFor allocs t x.id).isEmpty = true
    · have happ : applyInv allocs t fx tv m x
          = addTo m "Unclassified" (getEuroValue fx x / tv * 100) := by
        simp [applyInv, hx]
      rw [happ, ih, sumV_addTo, if_pos hx]
      ring
    · have happ : applyInv allocs t fx tv m x
          = (allocationsFor allocs t x.id).foldl
              (fun m a => addTo m (categoryOr a)
                (getEuroValue fx x / tv * a.percentage.getD 0)) m := by
        simp [applyInv, hx]
      rw [happ, ih, sumV_allocFold, if_neg hx]
      ring

/-- C2 counterexample: an allocation record whose own category label is the
literal string "Unclassified" lands in the same object key as the sentinel.
With two holdings of 100 EUR each, one with no allocations and one carrying an
"industry" record with category "Unclassified" at 50%, the accumulated
"Unclassified" contribution is 50 + 25 = 75, while 100 times the total weight
of zero-allocation holdings is only 50. -/
theorem c2_counterexample :
    getV
        (weightedMap
          [{ id := "h1", quantity := some 1, current_price := some 100,
              currency := some "EUR" },
           { id := "h2", quantity := some 1, current_price := some 100,
              currency := some "EUR" }]
          [{ investment := some "h2", allocation_type := some "industry",
              category := some "Unclassified", percentage := some 50 }]
          (fun _ => none) "industry" 200)
        "Unclassified" = 75
    ∧ 100 * (([({ id := "h1", quantity := some 1, current_price := some 100,
                   currency := some "EUR" } : Investment),
           { id := "h2", quantity := some 1, current_price := some 100,
              currency := some "EUR" }].filter
            (fun i => (allocationsFor
              [{ investment := some "h2", allocation_type := some "industry",
                  category := some "Unclassified", percentage := some 50 }]
              "industry" i.id).isEmpty)).map
          (fun i => getEuroValue (fun _ => none) i / 200)).sum = 50 := by
  constructor
  · simp +decide [weightedMap, applyInv, allocationsFor, allocMatches,
      categoryOr, addTo, getV, getEuroValue, convertToEur, currencyOr]
    norm_num
  · simp +decide [allocationsFor, allocMatches, getEuroValue, convertToEur,
      currencyOr]
    norm_num

/-- C2 (amended): provided no allocation record's own category label is the
literal string "Unclassified", the accumulated "Unclassified" contribution
equals exactly 100 times the total value-weight of holdings with zero
allocation records for the dimension; and the grand total of all accumulated
contributions is the sum over holdings of either weight×100 (no records) or
weight times the holding's declared percentage sum — an under-100 shortfall
is never added to "Unclassified" or any other bucket. -/
theorem c2_unclassified_bucket (invs : List Investment)
    (allocs : List Allocation) (fx : String → Option ℚ) (t : String)
    (hcat : ∀ a ∈ allocs, categoryOr a ≠ "Unclassified") :
    getV (weightedMap invs allocs fx t (getTotalValue fx invs)) "Unclassified"
      = 100 * ((invs.filter
            (fun i => (allocationsFor allocs t i.id).isEmpty)).map
          (fun i => getEuroValue fx i / getTotalValue fx invs)).sum
    ∧ sumV (weightedMap invs allocs fx t (getTotalValue fx invs))
      = (invs.map (fun i =>
          if (allocationsFor allocs t i.id).isEmpty
          then getEuroValue fx i / getTotalValue fx invs * 100
          else getEuroValue fx i / getTotalValue fx invs
            * ((allocationsFor allocs t i.id).map
                (fun a => a.percentage.getD 0)).sum)).sum := by
  constructor
  · rw [weightedMap,
      getV_weightedFold_unclassified allocs t fx (getTotalValue fx invs) hcat invs []]
    simp [getV]
  · rw [weightedMap,
      sumV_weightedFold allocs t fx (getTotalValue fx invs) invs []]
    simp [sumV]

/-- Witness for C2: the amended theorem applied to a snapshot with one
unallocated holding and one holding fully attributed to "Tech". -/
theorem c2_unclassified_bucket_witness :
    (∀ a ∈ [({ investment := some "h2", allocation_type := some "industry",
                category := some "Tech", percentage := some 60 } : Allocation)],
        categoryOr a ≠ "Unclassified")
    ∧ getV
        (weightedMap
          [{ id := "h1", quantity := some 1, current_price := some 100,
              currency := some "EUR" },
           { id := "h2", quantity := some 1, current_price := some 100,
              currency := some "EUR" }]
          [{ investment := some "h2", allocation_type := some "industry",
              category := some "Tech", percentage := some 60 }]
          (fun _ => none) "industry"
          (getTotalValue (fun _ => none)
            [{ id := "h1", quantity := some 1, current_price := some 100,
                currency := some "EUR" },
             { id := "h2", quantity := some 1, current_price := some 100,
                currency := some "EUR" }]))
        "Unclassified"
      = 100 * (([({ id := "h1", quantity := some 1, current_price := some 100,
                     currency := some "EUR" } : Investment),
           { id := "h2", quantity := some 1, current_price := some 100,
              currency := some "EUR" }].filter
            (fun i => (allocationsFor
              [{ investment := some "h2", allocation_type := some "industry",
                  category := some "Tech", percentage := some 60 }]
              "industry" i.id).isEmpty)).map
          (fun i => getEuroValue (fun _ => none) i
            / getTotalValue (fun _ => none)
                [{ id := "h1", quantity := some 1, current_price := some 100,
                    currency := some "EUR" },
                 { id := "h2", quantity := some 1, current_price := some 100,
                    currency := some "EUR" }])).sum :=
  ⟨by decide,
   (c2_unclassified_bucket
      [{ id := "h1", quantity := some 1, current_price := some 100,
          currency := some "EUR" },
       { id := "h2", quantity := some 1, current_price := some 100,
          currency := some "EUR" }]
      [{ investment := some "h2", allocation_type := some "industry",
          category := some "Tech", percentage := some 60 }]
      (fun _ => none) "industry" (by decide)).1⟩

/-- C3 counterexample: a category whose accumulated contribution is exactly
0.1 percentage points is dropped, because line 479 filters with the strict
comparison `v > 0.1`.  One holding of 100 EUR with a single "industry"
allocation of 0.1% accumulates exactly 0.1 for category "B", yet the returned
breakdown is empty. -/
theorem c3_counterexample :
    calculateWeightedAllocations
        [{ id := "h1", quantity := some 1, current_price := some 100,
           currency := some "EUR" }]
        [{ investment := some "h1", allocation_type := some "industry",
           category := some "B", percentage := some (1/10) }]
        (fun _ => none) "industry" = []
    ∧ getV
        (weightedMap
          [{ id := "h1", quantity := some 1, current_price := some 100,
             currency := some "EUR" }]
          [{ investment := some "h1", allocation_type := some "industry",
             category := some "B", percentage := some (1/10) }]
          (fun _ => none) "industry"
          (getTotalValue (fun _ => none)
            [{ id := "h1", quantity := some 1, current_price := some 100,
               currency := some "EUR" }]))
        "B" = 1/10 := by
  constructor
  · simp +decide [calculateWeightedAllocations, weightedMap, applyInv,
      allocationsFor, allocMatches, categoryOr, addTo, getTotalValue,
      getEuroValue, convertToEur, currencyOr]
  · simp +decide [weightedMap, applyInv, allocationsFor, allocMatches,
      categoryOr, addTo, getV, getTotalValue, getEuroValue, convertToEur,
      currencyOr]

/-- C3 (amended): when the total value is non-zero, the output of
`calculateWeightedAllocations` contains exactly the accumulated (category,
value) entries whose contribution is strictly greater than the 0.1 noise
threshold (an entry of exactly 0.1 is dropped by the strict `v > 0.1`
filter), and the retained pairs are sorted in descending order of
contribution. -/
theorem c3_threshold_and_sort (invs : List Investment)
    (allocs : List Allocation) (fx : String → Option ℚ) (t : String)
    (hT : getTotalValue fx invs ≠ 0) :
    (∀ p : String × ℚ,
      (p ∈ calculateWeightedAllocations invs allocs fx t ↔
        p ∈ weightedMap invs allocs fx t (getTotalValue fx invs)
          ∧ (1 : ℚ)/10 < p.2))
    ∧ List.Sorted (fun a b : String × ℚ => b.2 ≤ a.2)
        (calculateWeightedAllocations invs allocs fx t) := by
  constructor
  · intro p
    rw [calculateWeightedAllocations]
    simp only [if_neg hT]
    rw [(List.mergeSort_perm _ _).mem_iff, List.mem_filter]
    simp
  · rw [calculateWeightedAllocations]
    simp only [if_neg hT]
    have hs := @List.sorted_mergeSort (String × ℚ)
      (fun a b => decide (b.2 ≤ a.2))
      (fun a b c hab hbc => by
        simp only [decide_eq_true_eq] at hab hbc ⊢
        exact le_trans hbc hab)
      (fun a b => by
        simp only [Bool.or_eq_true, decide_eq_true_eq]
        exact le_total b.2 a.2)
      ((weightedMap invs allocs fx t (getTotalValue fx invs)).filter
        (fun p => decide ((1 : ℚ)/10 < p.2)))
    exact hs.imp (fun h => of_decide_eq_true h)

/-- Witness for C3: the amended theorem applied to a single 100 EUR holding
with no allocation records. -/
theorem c3_threshold_and_sort_witness :
    getTotalValue (fun _ => none)
        [{ id := "h1", quantity := some 1, current_price := some 100,
           currency := some "EUR" }] ≠ 0
    ∧ ((∀ p : String × ℚ,
        (p ∈ calculateWeightedAllocations
            [{ id := "h1", quantity := some 1, current_price := some 100,
               currency := some "EUR" }] [] (fun _ => none) "industry" ↔
          p ∈ weightedMap
              [{ id := "h1", quantity := some 1, current_price := some 100,
                 currency := some "EUR" }] [] (fun _ => none) "industry"
              (getTotalValue (fun _ => none)
                [{ id := "h1", quantity := some 1, current_price := some 100,
                   currency := some "EUR" }])
            ∧ (1 : ℚ)/10 < p.2))
      ∧ List.Sorted (fun a b : String × ℚ => b.2 ≤ a.2)
          (calculateWeightedAllocations
            [{ id := "h1", quantity := some 1, current_price := some 100,
               currency := some "EUR" }] [] (fun _ => none) "industry")) :=
  ⟨by simp [getTotalValue, getEuroValue, convertToEur, currencyOr],
   c3_threshold_and_sort
     [{ id := "h1", quantity := some 1, current_price := some 100,
        currency := some "EUR" }] [] (fun _ => none) "industry"
     (by simp [getTotalValue, getEuroValue, convertToEur, currencyOr])⟩

/-- The running minimum computed by the ascending sort's first element is one
of the candidate dates. -/
theorem foldlMin_mem (ds : List DateYMD) (d : DateYMD) :
    (ds.foldl (fun acc x => if dateLe x acc then x else acc) d) ∈ d :: ds := by
  induction ds generalizing d with
  | nil => simp
  | cons x ds ih =>
    rw [List.foldl_cons]
    rcases List.mem_cons.mp (ih (if dateLe x d then x else d)) with h | h
    · rw [h]
      by_cases hx : dateLe x d = true
      · rw [if_pos hx]
        exact List.mem_cons_of_mem _ (List.mem_cons_self _ _)
      · rw [if_neg hx]
        exact List.mem_cons_self _ _
    · exact List.mem_cons_of_mem _ (List.mem_cons_of_mem _ h)

/-- Date order implies month-index order (months are bounded by 12). -/
theorem dateLe_monthIdx (d1 d2 : DateYMD) (h : dateLe d1 d2 = true) :
    monthIdx d1.year d1.month.val ≤ monthIdx d2.year d2.month.val := by
  have h1 : d1.month.val < 12 := d1.month.isLt
  have h2 : d2.month.val < 12 := d2.month.isLt
  simp only [dateLe, Bool.or_eq_true, Bool.and_eq_true, decide_eq_true_eq] at h
  simp only [monthIdx]
  omega

/-- The earliest purchase date is one of the purchase dates. -/
theorem earliestPurchase_mem (invs : List Investment) (e : DateYMD)
    (he : earliestPurchase invs = some e) : e ∈ purchaseDates invs := by
  rw [earliestPurchase] at he
  cases hpd : purchaseDates invs with
  | nil => rw [hpd] at he; exact absurd he (by simp)
  | cons d ds =>
    rw [hpd] at he
    have := foldlMin_mem ds d
    simp only [Option.some.injEq] at he
    exact he ▸ this

/-- C7: `calculateValueHistory` returns the empty series when no holding has
a purchase date; otherwise (for well-formed snapshots whose purchase dates
are not in the future) it returns one point per calendar month from the
earliest purchase month through the current month inclusive —
`monthIdx(now) - monthIdx(earliest) + 1` points — and its final value is
forced to the live `getTotalValue()`. -/
theorem c7_value_history (fx : String → Option ℚ) (now : DateYMD)
    (invs : List Investment)
    (hwf : ∀ d ∈ purchaseDates invs, dateLe d now = true) :
    (purchaseDates invs = [] → calculateValueHistory fx now invs = ⟨[], []⟩)
    ∧ (∀ e, earliestPurchase invs = some e →
        (calculateValueHistory fx now invs).labels.length
          = (monthIdx now.year now.month.val
              - monthIdx e.year e.month.val + 1).toNat
        ∧ (calculateValueHistory fx now invs).values.length
          = (monthIdx now.year now.month.val
              - monthIdx e.year e.month.val + 1).toNat
        ∧ (calculateValueHistory fx now invs).values.getLast?
          = some (getTotalValue fx invs)) := by
  constructor
  · intro hpd
    rw [calculateValueHistory]
    by_cases hinv : invs.isEmpty = true
    · rw [if_pos hinv]
    · rw [if_neg hinv, earliestPurchase, hpd]
  · intro e he
    have hmem : e ∈ purchaseDates invs := earliestPurchase_mem invs e he
    have hle : monthIdx e.year e.month.val ≤ monthIdx now.year now.month.val :=
      dateLe_monthIdx e now (hwf e hmem)
    have hinv : invs.isEmpty = false := by
      cases invs with
      | nil =>
        rw [earliestPurchase] at he
        simp [purchaseDates] at he
      | cons a l => rfl
    have hn1 : 1 ≤ (monthIdx now.year now.month.val
        - monthIdx e.year e.month.val + 1).toNat := by
      omega
    rw [calculateValueHistory, if_neg (by rw [hinv]; exact Bool.false_ne_true),
      he]
    set n : Nat := (monthIdx now.year now.month.val
      - monthIdx e.year e.month.val + 1).toNat with hn
    have hraw : ∀ g : Nat → ℚ, ((List.range n).map g).isEmpty = false := by
      intro g
      rw [List.isEmpty_eq_false_iff_exists_mem]
      exact ⟨g 0, List.mem_map_of_mem g (List.mem_range.mpr (by omega))⟩
    refine ⟨by simp, ?_, ?_⟩
    · simp only [hraw, if_neg Bool.false_ne_true]
      rw [List.length_append, List.length_dropLast, List.length_map,
        List.length_range]
      simp
      omega
    · simp only [hraw, if_neg Bool.false_ne_true]
      exact List.getLast?_concat _

/-- Witness for C7: the theorem applied to one holding purchased in August
2026, evaluated in October 2026 (three monthly points). -/
theorem c7_value_history_witness :
    (∀ d ∈ purchaseDates
        [{ id := "h1", quantity := some 1, current_price := some 100,
           currency := some "EUR", purchase_price := some 80,
           purchase_date := some ⟨2026, 7, 15⟩ }],
      dateLe d ⟨2026, 9, 11⟩ = true)
    ∧ ((calculateValueHistory (fun _ => none) ⟨2026, 9, 11⟩
          [{ id := "h1", quantity := some 1, current_price := some 100,
             currency := some "EUR", purchase_price := some 80,
             purchase_date := some ⟨2026, 7, 15⟩ }]).labels.length
        = (monthIdx (2026 : Int) (9 : Nat) - monthIdx (2026 : Int) (7 : Nat)
            + 1).toNat
      ∧ (calculateValueHistory (fun _ => none) ⟨2026, 9, 11⟩
          [{ id := "h1", quantity := some 1, current_price := some 100,
             currency := some "EUR", purchase_price := some 80,
             purchase_date := some ⟨2026, 7, 15⟩ }]).values.length
        = (monthIdx (2026 : Int) (9 : Nat) - monthIdx (2026 : Int) (7 : Nat)
            + 1).toNat
      ∧ (calculateValueHistory (fun _ => none) ⟨2026, 9, 11⟩
          [{ id := "h1", quantity := some 1, current_price := some 100,
             currency := some "EUR", purchase_price := some 80,
             purchase_date := some ⟨2026, 7, 15⟩ }]).values.getLast?
        = some (getTotalValue (fun _ => none)
            [{ id := "h1", quantity := some 1, current_price := some 100,
               currency := some "EUR", purchase_price := some 80,
               purchase_date := some ⟨2026, 7, 15⟩ }])) :=
  ⟨by decide,
   (c7_value_history (fun _ => none) ⟨2026, 9, 11⟩
      [{ id := "h1", quantity := some 1, current_price := some 100,
         currency := some "EUR", purchase_price := some 80,
         purchase_date := some ⟨2026, 7, 15⟩ }] (by decide)).2
     ⟨2026, 7, 15⟩ (by decide)⟩
